import Mathlib

/-!
Verification development for the IPO-tracking client's core logic:
the sorting hook (`hooks/useSorting.ts`), the pagination hook
(`hooks/usePagination.ts`), and the row normalizer / watchlist toggle of
`components/mainPage.tsx`.  JavaScript numbers are modelled as rationals,
`Array.prototype.sort` (stable since ES2019) as `List.mergeSort`, and the
asynchronous watchlist toggle as a two-phase transition system.
-/

namespace IPOHype

/-- Canonical IPO record, from `lib/types.ts` (`interface IPO`). -/
structure IPO where
  cik : String
  ticker : String
  companyName : String
  exchange : String
  sharesOffered : String
  sharePrice : String
  estimatedIpoDate : String
  latestFilingType : String
  raiseAmount : String
  logoUrl : Option String
  rank : Nat
deriving DecidableEq, Repr

/-- Sort columns, from `lib/types.ts` (`type SortColumn`). -/
inductive SortColumn where
  | name
  | exchange
  | price
  | shares
  | raise
  | date
deriving DecidableEq, Repr

/-- Non-null sort directions from `lib/types.ts`; the TS type
`"asc" | "desc" | null` is modelled as `Option SortDirection`. -/
inductive SortDirection where
  | asc
  | desc
deriving DecidableEq, Repr

/-- Character class kept by the regex replacement `replace(/[^0-9.]/g, '')`. -/
def isNumChar (c : Char) : Bool := c.isDigit || c = '.'

/-- Mirrors `value.replace(/[^0-9.]/g, '')` in `useSorting.ts`.  JS strings are
modelled as their character lists. -/
def stripNonNumeric (s : List Char) : List Char := s.filter isNumChar

/-- JS `String.prototype.trim`: drop leading and trailing whitespace. -/
def jsTrim (s : List Char) : List Char :=
  ((s.dropWhile Char.isWhitespace).reverse.dropWhile Char.isWhitespace).reverse

/-- JS `String.prototype.split` with a single-character separator. -/
def jsSplit (sep : Char) : List Char → List (List Char)
  | [] => [[]]
  | c :: cs =>
    if c = sep then [] :: jsSplit sep cs
    else
      match jsSplit sep cs with
      | [] => [[c]]
      | h :: t => (c :: h) :: t

/-- Numeric value of a list of decimal digit characters (most significant first). -/
def natOfDigits (ds : List Char) : Nat := ds.foldl (fun n c => 10 * n + (c.toNat - 48)) 0

/-- JS `parseFloat`, restricted to the call pattern of `useSorting.ts` where the
argument has been stripped to decimal digits and `.` only: the longest valid
decimal-literal prefix is parsed, and `none` models the NaN result. -/
def jsParseFloat? (s : List Char) : Option ℚ :=
  match s.dropWhile (fun c => c.isDigit) with
  | '.' :: rest2 =>
    if (s.takeWhile (fun c => c.isDigit)).isEmpty &&
        (rest2.takeWhile (fun c => c.isDigit)).isEmpty then none
    else some ((natOfDigits (s.takeWhile (fun c => c.isDigit)) : ℚ) +
      (natOfDigits (rest2.takeWhile (fun c => c.isDigit)) : ℚ) /
        (10 : ℚ) ^ (rest2.takeWhile (fun c => c.isDigit)).length)
  | _ =>
    if (s.takeWhile (fun c => c.isDigit)).isEmpty then none
    else some (natOfDigits (s.takeWhile (fun c => c.isDigit)))

/-- Function `parseNumericValue` from `useSorting.ts`.  The TS parameter type is
`string | undefined | null`; `none` models `null`/`undefined`, and the falsy
guard `if (!value) return 0` also sends the empty string to zero.
`Math.max(...parts)` is a fold of `max` over the (always nonempty) result of
`split('-')`. -/
def parseNumericValue (value : Option String) : ℚ :=
  match value with
  | none => 0
  | some v =>
    if v.data = [] then 0
    else if (jsTrim v.data).contains '-' then
      match (jsSplit '-' (jsTrim v.data)).map
          (fun p => (jsParseFloat? (stripNonNumeric p)).getD 0) with
      | [] => 0
      | h :: t => t.foldl max h
    else (jsParseFloat? (stripNonNumeric (jsTrim v.data))).getD 0

/-- The generic tail of the comparator in `sortIPOs`:
`if (valA < valB) return direction === "asc" ? -1 : 1;` etc.  JS string `<`
(code-unit order) is modelled by the lexicographic order on `String`. -/
def dirCmp {α : Type} [LinearOrder α] (dir : SortDirection) (x y : α) : ℚ :=
  if x < y then (match dir with | .asc => -1 | .desc => 1)
  else if x > y then (match dir with | .asc => 1 | .desc => -1)
  else 0

/-- Numeric-column comparator body of `sortIPOs`: coerced zeros are pushed to
the end, then the generic direction comparison runs. -/
def zpCmp (dir : SortDirection) (x y : ℚ) : ℚ :=
  if x = 0 ∧ y ≠ 0 then 1
  else if x ≠ 0 ∧ y = 0 then -1
  else dirCmp dir x y

/-- Date-column comparator body of `sortIPOs`: empty dates are pushed to the
end (`!valA && valB` checks), then the generic direction comparison runs. -/
def emptyCmp (dir : SortDirection) (x y : String) : ℚ :=
  if x = "" ∧ y ≠ "" then 1
  else if x ≠ "" ∧ y = "" then -1
  else dirCmp dir x y

/-- Per-column comparator of `sortIPOs` (explicit column branch).  JS
`toLowerCase` is modelled by `String.toLower`. -/
def sortCmp (column : SortColumn) (direction : SortDirection) (a b : IPO) : ℚ :=
  match column with
  | .name => dirCmp direction a.companyName.toLower b.companyName.toLower
  | .exchange => dirCmp direction a.exchange.toLower b.exchange.toLower
  | .price => zpCmp direction (parseNumericValue (some a.sharePrice))
      (parseNumericValue (some b.sharePrice))
  | .shares => zpCmp direction (parseNumericValue (some a.sharesOffered))
      (parseNumericValue (some b.sharesOffered))
  | .raise => zpCmp direction (parseNumericValue (some a.raiseAmount))
      (parseNumericValue (some b.raiseAmount))
  | .date => emptyCmp direction a.estimatedIpoDate b.estimatedIpoDate

/-- Default comparator of `sortIPOs` (no column/direction chosen): date
ascending with empty dates last; the tie-break and the both-empty case use the
coerced raise amount descending (`capB - capA`).  `localeCompare` on
equal-format date strings is modelled as lexicographic comparison. -/
def defaultCmp (a b : IPO) : ℚ :=
  let dateA := a.estimatedIpoDate
  let dateB := b.estimatedIpoDate
  if dateA = "" ∧ dateB ≠ "" then 1
  else if dateA ≠ "" ∧ dateB = "" then -1
  else if dateA = "" ∧ dateB = "" then
    parseNumericValue (some b.raiseAmount) - parseNumericValue (some a.raiseAmount)
  else if dateA ≠ dateB then dirCmp .asc dateA dateB
  else parseNumericValue (some b.raiseAmount) - parseNumericValue (some a.raiseAmount)

/-- The comparator `sortIPOs` actually installs: `if (!column || !direction)`
selects the default comparator. -/
def effCmp (column : Option SortColumn) (direction : Option SortDirection)
    (a b : IPO) : ℚ :=
  match column, direction with
  | some col, some dir => sortCmp col dir a b
  | _, _ => defaultCmp a b

/-- Boolean "a may stay before b" relation handed to the stable sort. -/
def effLe (column : Option SortColumn) (direction : Option SortDirection)
    (a b : IPO) : Bool :=
  decide (effCmp column direction a b ≤ 0)

/-- Function `sortIPOs` from `useSorting.ts`.  `[...data].sort(cmp)` with a consistent
comparator is the stable sort by `cmp(a,b) <= 0`. -/
def sortIPOs (data : List IPO) (column : Option SortColumn)
    (direction : Option SortDirection) : List IPO :=
  data.mergeSort (effLe column direction)

/-- Ranking step of the `useEffect` in `useSorting.ts`:
`sorted.map((ipo, index) => ({ ...ipo, rank: index + 1 }))`. -/
def rankIPOs (l : List IPO) : List IPO :=
  l.mapIdx (fun index ipo => { ipo with rank := index + 1 })

/-- Sorted-and-ranked list that the hook stores in `sortedIpos`. -/
def sortAndRank (data : List IPO) (column : Option SortColumn)
    (direction : Option SortDirection) : List IPO :=
  rankIPOs (sortIPOs data column direction)

/-- Coerced numeric key used by column `col`, when `col` is one of the three
numeric columns (`price`, `shares`, `raise`); `0` on the other columns, where
no numeric coercion happens. -/
def colVal : SortColumn → IPO → ℚ
  | .price, a => parseNumericValue (some a.sharePrice)
  | .shares, a => parseNumericValue (some a.sharesOffered)
  | .raise, a => parseNumericValue (some a.raiseAmount)
  | _, _ => 0

/-- Flag that is `1` exactly on coerced-zero values (pushed to the end). -/
def zflag (x : ℚ) : Nat := if x = 0 then 1 else 0

/-- Flag that is `1` exactly on empty date strings (pushed to the end). -/
def eflag (s : String) : Nat := if s = "" then 1 else 0

/-- Direction-dependent order: ascending is `≤`, descending is `≥`. -/
def dirLe {α : Type} [LinearOrder α] (dir : SortDirection) (x y : α) : Prop :=
  match dir with
  | .asc => x ≤ y
  | .desc => y ≤ x

theorem dirCmp_nonpos {α : Type} [LinearOrder α] (dir : SortDirection) (x y : α) :
    dirCmp dir x y ≤ 0 ↔ dirLe dir x y := by
  unfold dirCmp dirLe
  rcases lt_trichotomy x y with h | h | h
  · rw [if_pos h]
    cases dir
    · exact ⟨fun _ => h.le, fun _ => by norm_num⟩
    · exact ⟨fun h1 => absurd h1 (by norm_num), fun h2 => absurd h2 (not_le.mpr h)⟩
  · subst h
    rw [if_neg (lt_irrefl x), if_neg (lt_irrefl x)]
    cases dir <;> simp
  · rw [if_neg (lt_asymm h), if_pos h]
    cases dir
    · exact ⟨fun h1 => absurd h1 (by norm_num), fun h2 => absurd h2 (not_le.mpr h)⟩
    · exact ⟨fun _ => h.le, fun _ => by norm_num⟩

theorem zpCmp_nonpos (dir : SortDirection) (x y : ℚ) :
    zpCmp dir x y ≤ 0 ↔
      (zflag x < zflag y ∨ (zflag x = zflag y ∧ dirLe dir x y)) := by
  by_cases hx : x = 0 <;> by_cases hy : y = 0 <;>
    simp [zpCmp, zflag, hx, hy, dirCmp_nonpos]

theorem emptyCmp_nonpos (dir : SortDirection) (x y : String) :
    emptyCmp dir x y ≤ 0 ↔
      (eflag x < eflag y ∨ (eflag x = eflag y ∧ dirLe dir x y)) := by
  by_cases hx : x = "" <;> by_cases hy : y = "" <;>
    simp [emptyCmp, eflag, hx, hy, dirCmp_nonpos]

/-- Total preorder: a transitive and total binary relation. -/
def TotalPre {α : Type} (r : α → α → Prop) : Prop :=
  (∀ a b c, r a b → r b c → r a c) ∧ (∀ a b, r a b ∨ r b a)

theorem totalPre_pull {α β : Type} [LinearOrder β] (f : α → β) (dir : SortDirection) :
    TotalPre (fun a b => dirLe dir (f a) (f b)) := by
  cases dir <;>
    exact ⟨fun a b c h1 h2 => le_trans (by assumption) (by assumption),
      fun a b => le_total _ _⟩

theorem totalPre_lex {α β : Type} [LinearOrder β] (f : α → β) (r : α → α → Prop)
    (h : TotalPre r) :
    TotalPre (fun a b => f a < f b ∨ (f a = f b ∧ r a b)) := by
  obtain ⟨htr, hto⟩ := h
  constructor
  · rintro a b c (h1 | ⟨h1, h1'⟩) (h2 | ⟨h2, h2'⟩)
    · exact Or.inl (lt_trans h1 h2)
    · exact Or.inl (h2 ▸ h1)
    · exact Or.inl (h1 ▸ h2)
    · exact Or.inr ⟨h1.trans h2, htr _ _ _ h1' h2'⟩
  · intro a b
    rcases lt_trichotomy (f a) (f b) with h1 | h1 | h1
    · exact Or.inl (Or.inl h1)
    · rcases hto a b with h2 | h2
      · exact Or.inl (Or.inr ⟨h1, h2⟩)
      · exact Or.inr (Or.inr ⟨h1.symm, h2⟩)
    · exact Or.inr (Or.inl h1)

/-- Characterization of the column comparators as lexicographic total
preorders: flagged (zero / empty) values last, then the direction order. -/
def colRel : SortColumn → SortDirection → IPO → IPO → Prop
  | .name, dir => fun a b => dirLe dir a.companyName.toLower b.companyName.toLower
  | .exchange, dir => fun a b => dirLe dir a.exchange.toLower b.exchange.toLower
  | .price, dir => fun a b =>
      zflag (colVal .price a) < zflag (colVal .price b) ∨
        (zflag (colVal .price a) = zflag (colVal .price b) ∧
          dirLe dir (colVal .price a) (colVal .price b))
  | .shares, dir => fun a b =>
      zflag (colVal .shares a) < zflag (colVal .shares b) ∨
        (zflag (colVal .shares a) = zflag (colVal .shares b) ∧
          dirLe dir (colVal .shares a) (colVal .shares b))
  | .raise, dir => fun a b =>
      zflag (colVal .raise a) < zflag (colVal .raise b) ∨
        (zflag (colVal .raise a) = zflag (colVal .raise b) ∧
          dirLe dir (colVal .raise a) (colVal .raise b))
  | .date, dir => fun a b =>
      eflag a.estimatedIpoDate < eflag b.estimatedIpoDate ∨
        (eflag a.estimatedIpoDate = eflag b.estimatedIpoDate ∧
          dirLe dir a.estimatedIpoDate b.estimatedIpoDate)

/-- Characterization of the default comparator: empty dates last, then date
ascending, ties broken by raise amount descending. -/
def defaultRel (a b : IPO) : Prop :=
  eflag a.estimatedIpoDate < eflag b.estimatedIpoDate ∨
    (eflag a.estimatedIpoDate = eflag b.estimatedIpoDate ∧
      (a.estimatedIpoDate < b.estimatedIpoDate ∨
        (a.estimatedIpoDate = b.estimatedIpoDate ∧
          parseNumericValue (some b.raiseAmount) ≤ parseNumericValue (some a.raiseAmount))))

theorem sortCmp_nonpos (col : SortColumn) (dir : SortDirection) (a b : IPO) :
    sortCmp col dir a b ≤ 0 ↔ colRel col dir a b := by
  cases col <;>
    simp [sortCmp, colRel, colVal, dirCmp_nonpos, zpCmp_nonpos, emptyCmp_nonpos]

theorem defaultCmp_nonpos (a b : IPO) :
    defaultCmp a b ≤ 0 ↔ defaultRel a b := by
  unfold defaultCmp defaultRel
  by_cases hA : a.estimatedIpoDate = "" <;> by_cases hB : b.estimatedIpoDate = ""
  · norm_num [hA, hB, eflag, sub_nonpos, lt_self_iff_false]
  · norm_num [hA, hB, eflag]
  · norm_num [hA, hB, eflag]
  · by_cases hd : a.estimatedIpoDate = b.estimatedIpoDate
    · norm_num [hA, hB, hd, eflag, sub_nonpos, lt_self_iff_false]
    · have c1 : ¬(a.estimatedIpoDate = "" ∧ ¬b.estimatedIpoDate = "") := fun h => hA h.1
      have c2 : ¬(¬a.estimatedIpoDate = "" ∧ b.estimatedIpoDate = "") := fun h => hB h.2
      have c3 : ¬(a.estimatedIpoDate = "" ∧ b.estimatedIpoDate = "") := fun h => hA h.1
      simp only [ne_eq]
      rw [if_neg c1, if_neg c2, if_neg c3, if_pos hd, dirCmp_nonpos]
      simp only [dirLe, eflag, if_neg hA, if_neg hB, lt_self_iff_false, hd,
        false_and, and_false, or_false, false_or, eq_self_iff_true, true_and]
      exact ⟨fun h => lt_of_le_of_ne h hd, le_of_lt⟩

theorem colRel_totalPre (col : SortColumn) (dir : SortDirection) :
    TotalPre (colRel col dir) := by
  cases col
  · exact totalPre_pull (fun a : IPO => a.companyName.toLower) dir
  · exact totalPre_pull (fun a : IPO => a.exchange.toLower) dir
  · exact totalPre_lex (fun a : IPO => zflag (colVal .price a)) _
      (totalPre_pull (fun a : IPO => colVal .price a) dir)
  · exact totalPre_lex (fun a : IPO => zflag (colVal .shares a)) _
      (totalPre_pull (fun a : IPO => colVal .shares a) dir)
  · exact totalPre_lex (fun a : IPO => zflag (colVal .raise a)) _
      (totalPre_pull (fun a : IPO => colVal .raise a) dir)
  · exact totalPre_lex (fun a : IPO => eflag a.estimatedIpoDate) _
      (totalPre_pull (fun a : IPO => a.estimatedIpoDate) dir)

theorem defaultRel_totalPre : TotalPre defaultRel := by
  have h := totalPre_lex (fun a : IPO => eflag a.estimatedIpoDate)
    (fun a b : IPO => a.estimatedIpoDate < b.estimatedIpoDate ∨
      (a.estimatedIpoDate = b.estimatedIpoDate ∧
        parseNumericValue (some b.raiseAmount) ≤ parseNumericValue (some a.raiseAmount)))
    (totalPre_lex (fun a : IPO => a.estimatedIpoDate) _
      (totalPre_pull (fun a : IPO => parseNumericValue (some a.raiseAmount)) .desc))
  exact h

theorem effLe_iff (c : Option SortColumn) (d : Option SortDirection) (a b : IPO) :
    effLe c d a b = true ↔
      (match c, d with
        | some col, some dir => colRel col dir a b
        | _, _ => defaultRel a b) := by
  match c, d with
  | some col, some dir =>
    simp [effLe, effCmp, sortCmp_nonpos]
  | none, _ => simp [effLe, effCmp, defaultCmp_nonpos]
  | some _, none => simp [effLe, effCmp, defaultCmp_nonpos]

theorem effLe_trans (c : Option SortColumn) (d : Option SortDirection)
    (a b e : IPO) (h1 : effLe c d a b) (h2 : effLe c d b e) : effLe c d a e := by
  match c, d with
  | some col, some dir =>
    rw [effLe_iff] at h1 h2 ⊢
    exact (colRel_totalPre col dir).1 a b e h1 h2
  | none, _ =>
    rw [effLe_iff] at h1 h2 ⊢
    exact defaultRel_totalPre.1 a b e h1 h2
  | some _, none =>
    rw [effLe_iff] at h1 h2 ⊢
    exact defaultRel_totalPre.1 a b e h1 h2

theorem effLe_total (c : Option SortColumn) (d : Option SortDirection)
    (a b : IPO) : effLe c d a b || effLe c d b a := by
  rw [Bool.or_eq_true]
  match c, d with
  | some col, some dir =>
    rw [effLe_iff, effLe_iff]
    exact (colRel_totalPre col dir).2 a b
  | none, _ =>
    rw [effLe_iff, effLe_iff]
    exact defaultRel_totalPre.2 a b
  | some _, none =>
    rw [effLe_iff, effLe_iff]
    exact defaultRel_totalPre.2 a b

/-- The list produced by `sortIPOs` is sorted by the effective comparator. -/
theorem sortIPOs_pairwise (data : List IPO) (c : Option SortColumn)
    (d : Option SortDirection) :
    (sortIPOs data c d).Pairwise (fun a b => effLe c d a b = true) :=
  List.sorted_mergeSort (fun a b e => effLe_trans c d a b e)
    (fun a b => effLe_total c d a b) data

theorem rankIPOs_map_cik (l : List IPO) :
    (rankIPOs l).map IPO.cik = l.map IPO.cik := by
  rw [rankIPOs, List.mapIdx_eq_enum_map, List.map_map]
  have h : (IPO.cik ∘ Function.uncurry fun index ipo => { ipo with rank := index + 1 }) =
      (IPO.cik ∘ Prod.snd) := rfl
  rw [h, ← List.map_map, List.enum_map_snd]

theorem rankIPOs_map_rank (l : List IPO) :
    (rankIPOs l).map IPO.rank = List.range' 1 l.length := by
  rw [rankIPOs, List.mapIdx_eq_enum_map, List.map_map]
  have h : (IPO.rank ∘ Function.uncurry fun (index : Nat) (ipo : IPO) =>
      { ipo with rank := index + 1 }) = ((fun i => 1 + i) ∘ Prod.fst) := by
    funext p
    simp [Function.uncurry, Nat.add_comm]
  rw [h, ← List.map_map, List.enum_map_fst, List.range_eq_range', List.map_add_range']

/-- C1: for every input list and every sort column (or none) and direction,
the sorted-and-ranked output is a permutation of the input (same multiset of
identifiers), and the rank fields are exactly the contiguous sequence
`1..N` in output order, where `N` is the input length. -/
theorem sortAndRank_perm_and_ranks (data : List IPO) (c : Option SortColumn)
    (d : Option SortDirection) :
    List.Perm ((sortAndRank data c d).map IPO.cik) (data.map IPO.cik) ∧
      (sortAndRank data c d).map IPO.rank = List.range' 1 data.length := by
  constructor
  · rw [sortAndRank, rankIPOs_map_cik, sortIPOs]
    exact (List.mergeSort_perm data (effLe c d)).map IPO.cik
  · rw [sortAndRank, rankIPOs_map_rank, sortIPOs, List.length_mergeSort]

theorem zflag_le_one (x : ℚ) : zflag x ≤ 1 := by
  unfold zflag
  split <;> omega

theorem zflag_eq_one {x : ℚ} (h : zflag x = 1) : x = 0 := by
  unfold zflag at h
  split at h
  · assumption
  · exact absurd h (by decide)

theorem zflag_lex_zero {x y : ℚ} {P : Prop}
    (h : zflag x < zflag y ∨ (zflag x = zflag y ∧ P)) (hx : x = 0) : y = 0 := by
  subst hx
  have h0 : zflag (0 : ℚ) = 1 := by simp [zflag]
  have h1 := zflag_le_one y
  rcases h with h | ⟨h, -⟩
  · exfalso
    omega
  · exact zflag_eq_one (by omega)

/-- C3: for each of the columns price, shares and raise, in both directions,
every row whose coerced numeric value is zero appears in the sorted output
strictly after every row whose coerced value is nonzero (equivalently: any
row at or after a coerced-zero row is itself coerced-zero). -/
theorem sortIPOs_zero_rows_last (data : List IPO) (col : SortColumn)
    (dir : SortDirection)
    (hcol : col = SortColumn.price ∨ col = SortColumn.shares ∨ col = SortColumn.raise)
    (i j : Nat) (hij : i < j) (hj : j < (sortIPOs data (some col) (some dir)).length)
    (hzero : colVal col ((sortIPOs data (some col) (some dir)).get ⟨i, Nat.lt_trans hij hj⟩) = 0) :
    colVal col ((sortIPOs data (some col) (some dir)).get ⟨j, hj⟩) = 0 := by
  have hp := sortIPOs_pairwise data (some col) (some dir)
  rw [List.pairwise_iff_getElem] at hp
  have hle := hp i j (Nat.lt_trans hij hj) hj hij
  rw [effLe_iff] at hle
  rcases hcol with h | h | h <;> subst h <;>
    simp only [colRel, List.get_eq_getElem] at hle hzero ⊢ <;>
    exact zflag_lex_zero hle hzero

/-- C8: sorting is stable (a tied pair in input order stays a sublist of the
output) and idempotent (re-sorting the sorted output is the identity), for
every column/direction including the default order. -/
theorem sortIPOs_stable_idempotent (data : List IPO) (c : Option SortColumn)
    (d : Option SortDirection) (a b : IPO)
    (hsub : List.Sublist [a, b] data) (heq : effCmp c d a b = 0) :
    List.Sublist [a, b] (sortIPOs data c d) ∧
      sortIPOs (sortIPOs data c d) c d = sortIPOs data c d := by
  constructor
  · rw [sortIPOs]
    exact List.pair_sublist_mergeSort (fun a b e => effLe_trans c d a b e)
      (fun a b => effLe_total c d a b) (by simp [effLe, heq]) hsub
  · rw [sortIPOs, sortIPOs]
    exact List.mergeSort_of_sorted (sortIPOs_pairwise data c d)

/-- Sample record with all free-form fields empty (every coerced value is 0). -/
def blankIPO : IPO :=
  { cik := "1", ticker := "", companyName := "", exchange := "",
    sharesOffered := "", sharePrice := "", estimatedIpoDate := "",
    latestFilingType := "", raiseAmount := "", logoUrl := none, rank := 0 }

theorem sortIPOs_zero_rows_last_witness :
    colVal SortColumn.shares
      ((sortIPOs [blankIPO, blankIPO] (some SortColumn.shares)
          (some SortDirection.asc)).get ⟨1, by simp [sortIPOs]⟩) = 0 := by
  have hsort : sortIPOs [blankIPO, blankIPO] (some SortColumn.shares)
      (some SortDirection.asc) = [blankIPO, blankIPO] := by
    rw [sortIPOs]
    exact List.mergeSort_of_sorted (by decide)
  exact sortIPOs_zero_rows_last [blankIPO, blankIPO] SortColumn.shares
    SortDirection.asc (Or.inr (Or.inl rfl)) 0 1 (by decide) (by simp [sortIPOs])
    (by simp only [List.get_eq_getElem, hsort, List.getElem_cons_zero]; decide)

theorem sortIPOs_stable_idempotent_witness :
    List.Sublist [blankIPO, blankIPO]
        (sortIPOs [blankIPO, blankIPO] (some SortColumn.price) (some SortDirection.asc)) ∧
      sortIPOs (sortIPOs [blankIPO, blankIPO] (some SortColumn.price) (some SortDirection.asc))
          (some SortColumn.price) (some SortDirection.asc) =
        sortIPOs [blankIPO, blankIPO] (some SortColumn.price) (some SortDirection.asc) :=
  sortIPOs_stable_idempotent [blankIPO, blankIPO] (some SortColumn.price)
    (some SortDirection.asc) blankIPO blankIPO (List.Sublist.refl _) (by decide)

/-- C2: the numeric coercion is total (it is a function into `ℚ`) and matches
the reference values: `"10.00 - 15.00" ↦ 15`, `"$1,234.50" ↦ 1234.5`,
`"" ↦ 0`, `"abc" ↦ 0`; a range takes the maximum of the independently parsed
sides, an unparseable side counting as zero (`"abc - 7.5" ↦ 7.5`). -/
theorem parseNumericValue_reference :
    parseNumericValue (some "10.00 - 15.00") = 15 ∧
      parseNumericValue (some "$1,234.50") = 1234.5 ∧
      parseNumericValue (some "") = 0 ∧
      parseNumericValue (some "abc") = 0 ∧
      parseNumericValue (some "abc - 7.5") = 7.5 := by
  refine ⟨?_, ?_, by decide, by decide, ?_⟩ <;>
    (simp +decide [parseNumericValue, jsTrim, jsSplit, stripNonNumeric,
      jsParseFloat?, natOfDigits, isNumChar]
     all_goals norm_num [sup_eq_max, max_def])

theorem jsParseFloat?_getD_nonneg (s : List Char) : 0 ≤ (jsParseFloat? s).getD 0 := by
  unfold jsParseFloat?
  split
  · split
    · simp
    · simp only [Option.getD_some]
      positivity
  · split
    · simp
    · simp only [Option.getD_some]
      positivity

theorem foldl_max_nonneg (t : List ℚ) (x : ℚ) (hx : 0 ≤ x) : 0 ≤ t.foldl max x := by
  induction t generalizing x with
  | nil => simpa using hx
  | cons y t ih =>
    rw [List.foldl_cons]
    exact ih (max x y) (le_trans hx (le_max_left x y))

/-- C10: the coercion never returns a negative number, because `-` is only
ever treated as a range separator and all other non-digit non-dot characters
are stripped before parsing; in particular `"-5"` coerces to `5`. -/
theorem parseNumericValue_nonneg :
    (∀ v : Option String, 0 ≤ parseNumericValue v) ∧
      parseNumericValue (some "-5") = 5 := by
  constructor
  · intro v
    unfold parseNumericValue
    split
    · exact le_refl 0
    · next s =>
      split
      · exact le_refl 0
      · split
        · split
          · exact le_refl 0
          · next hd tl heq =>
            have hmem : hd ∈ List.map
                (fun p => (jsParseFloat? (stripNonNumeric p)).getD 0)
                (jsSplit '-' (jsTrim s.data)) := by
              rw [heq]
              exact List.mem_cons_self _ _
            obtain ⟨p, -, hp⟩ := List.mem_map.mp hmem
            exact foldl_max_nonneg tl hd (hp ▸ jsParseFloat?_getD_nonneg (stripNonNumeric p))
        · exact jsParseFloat?_getD_nonneg _
  · decide

/-- Sort state held by `useSorting` (`sortColumn`, `sortDirection` React
state); the initial state is `⟨some .date, some .asc⟩`. -/
structure SortState where
  sortColumn : Option SortColumn
  sortDirection : Option SortDirection
deriving DecidableEq, Repr

/-- Function `handleSort` from `useSorting.ts`: clicking the active column cycles
asc → desc → cleared; clicking another column selects it ascending.  (When the
active column's direction is already null nothing changes, matching the code's
missing else-branch.) -/
def handleSort (s : SortState) (column : SortColumn) : SortState :=
  if s.sortColumn = some column then
    if s.sortDirection = some .asc then { s with sortDirection := some .desc }
    else if s.sortDirection = some .desc then
      { sortColumn := none, sortDirection := none }
    else s
  else { sortColumn := some column, sortDirection := some .asc }

/-- C4: the column-click state machine sends (active, asc) to (active, desc),
(active, desc) to the cleared state, and a click on a non-active column (or
from a cleared column) to (clicked, asc); in particular three successive
clicks on "price" from the cleared state give (price, asc), (price, desc),
then the cleared default order. -/
theorem handleSort_spec (c c' : SortColumn) (d : Option SortDirection)
    (h : c ≠ c') :
    handleSort ⟨some c, some SortDirection.asc⟩ c = ⟨some c, some SortDirection.desc⟩ ∧
      handleSort ⟨some c, some SortDirection.desc⟩ c = ⟨none, none⟩ ∧
      handleSort ⟨some c', d⟩ c = ⟨some c, some SortDirection.asc⟩ ∧
      handleSort ⟨none, d⟩ c = ⟨some c, some SortDirection.asc⟩ ∧
      handleSort ⟨none, none⟩ SortColumn.price = ⟨some SortColumn.price, some SortDirection.asc⟩ ∧
      handleSort ⟨some SortColumn.price, some SortDirection.asc⟩ SortColumn.price
        = ⟨some SortColumn.price, some SortDirection.desc⟩ ∧
      handleSort ⟨some SortColumn.price, some SortDirection.desc⟩ SortColumn.price
        = ⟨none, none⟩ := by
  refine ⟨by simp [handleSort], by simp [handleSort], ?_, by simp [handleSort],
    by decide, by decide, by decide⟩
  simp [handleSort, Ne.symm h]

theorem handleSort_spec_witness :
    handleSort ⟨some SortColumn.name, some SortDirection.asc⟩ SortColumn.name
        = ⟨some SortColumn.name, some SortDirection.desc⟩ ∧
      handleSort ⟨some SortColumn.name, some SortDirection.desc⟩ SortColumn.name
        = ⟨none, none⟩ ∧
      handleSort ⟨some SortColumn.price, some SortDirection.desc⟩ SortColumn.name
        = ⟨some SortColumn.name, some SortDirection.asc⟩ ∧
      handleSort ⟨none, some SortDirection.desc⟩ SortColumn.name
        = ⟨some SortColumn.name, some SortDirection.asc⟩ ∧
      handleSort ⟨none, none⟩ SortColumn.price
        = ⟨some SortColumn.price, some SortDirection.asc⟩ ∧
      handleSort ⟨some SortColumn.price, some SortDirection.asc⟩ SortColumn.price
        = ⟨some SortColumn.price, some SortDirection.desc⟩ ∧
      handleSort ⟨some SortColumn.price, some SortDirection.desc⟩ SortColumn.price
        = ⟨none, none⟩ :=
  handleSort_spec SortColumn.name SortColumn.price (some SortDirection.desc)
    (by decide)

/-- Value `totalPages` from `usePagination.ts`: `Math.ceil(items.length / itemsPerPage)`
as a natural-number ceiling division (the hook is only used with the positive
page sizes 10/25/50). -/
def totalPages (len itemsPerPage : Nat) : Nat :=
  (len + itemsPerPage - 1) / itemsPerPage

/-- State of the pagination hook together with its inputs: the React state
(`currentPage`, `itemsPerPage`) plus the current input list length and the
identity of the `resetTrigger` prop. -/
structure PagState where
  currentPage : Int
  itemsPerPage : Nat
  len : Nat
  trigger : String
deriving DecidableEq, Repr

/-- Events of the pagination hook: the four exposed operations and a change
of the input list (with the `resetTrigger` value accompanying it). -/
inductive PagEvent where
  | goToPage (page : Int)
  | nextPage
  | prevPage
  | changeItemsPerPage (n : Nat)
  | setItems (len : Nat) (trigger : String)
deriving DecidableEq, Repr

/-- One step of `usePagination`: `goToPage` guards `1 <= page <= totalPages`,
`nextPage`/`prevPage` guard the boundary, `changeItemsPerPage` resets the page
to 1, and a new input list resets the page to 1 exactly when the reset
trigger changed (the `useEffect` on `resetTrigger`). -/
def pagStep (s : PagState) : PagEvent → PagState
  | .goToPage page =>
    if 1 ≤ page ∧ page ≤ (totalPages s.len s.itemsPerPage : Int) then
      { s with currentPage := page }
    else s
  | .nextPage =>
    if s.currentPage < (totalPages s.len s.itemsPerPage : Int) then
      { s with currentPage := s.currentPage + 1 }
    else s
  | .prevPage =>
    if 1 < s.currentPage then { s with currentPage := s.currentPage - 1 }
    else s
  | .changeItemsPerPage n => { s with itemsPerPage := n, currentPage := 1 }
  | .setItems len trigger =>
    if trigger = s.trigger then { s with len := len }
    else { s with len := len, trigger := trigger, currentPage := 1 }

/-- C5 counterexample: after navigating to page 2 (30 items, page size 25)
and then shrinking the list to 5 items without changing the reset trigger,
the current page is 2 while totalPages is 1, so the page does not lie in
`[1, totalPages]` — the hook does not re-clamp on a bare list-length change. -/
theorem pagination_clamp_counterexample :
    let s2 := pagStep (pagStep ⟨1, 25, 30, "t"⟩ (PagEvent.goToPage 2))
      (PagEvent.setItems 5 "t")
    ¬(1 ≤ s2.currentPage ∧
      s2.currentPage ≤ (totalPages s2.len s2.itemsPerPage : Int)) := by decide

/-- C5 amended: navigation events keep the current page inside
`[1, totalPages]` whenever it already was there, navigating out of range is a
no-op, and a page-size change or a reset-trigger change resets the page to 1;
but an input-list change that keeps the trigger leaves the page unchanged
(no re-clamping against the new length). -/
theorem pagination_step_spec (s : PagState) (page : Int) (n len : Nat)
    (trig : String) :
    (¬(1 ≤ page ∧ page ≤ (totalPages s.len s.itemsPerPage : Int)) →
        pagStep s (PagEvent.goToPage page) = s) ∧
      ((1 ≤ s.currentPage ∧ s.currentPage ≤ (totalPages s.len s.itemsPerPage : Int)) →
        ∀ e : PagEvent, (e = PagEvent.goToPage page ∨ e = PagEvent.nextPage ∨
            e = PagEvent.prevPage) →
          1 ≤ (pagStep s e).currentPage ∧
            (pagStep s e).currentPage ≤ (totalPages s.len s.itemsPerPage : Int)) ∧
      (pagStep s (PagEvent.changeItemsPerPage n)).currentPage = 1 ∧
      (trig ≠ s.trigger → (pagStep s (PagEvent.setItems len trig)).currentPage = 1) ∧
      (trig = s.trigger →
        pagStep s (PagEvent.setItems len trig) = { s with len := len }) := by
  refine ⟨fun h => by simp [pagStep, h], fun h e he => ?_, by simp [pagStep],
    fun h => by simp [pagStep, h], fun h => by simp [pagStep, h]⟩
  rcases he with rfl | rfl | rfl
  · simp only [pagStep]
    split
    · next hc => exact ⟨hc.1, hc.2⟩
    · exact h
  · simp only [pagStep]
    split
    · next hc =>
      constructor
      · show (1 : Int) ≤ s.currentPage + 1
        omega
      · show s.currentPage + 1 ≤ (totalPages s.len s.itemsPerPage : Int)
        omega
    · exact h
  · simp only [pagStep]
    split
    · next hc =>
      constructor
      · show (1 : Int) ≤ s.currentPage - 1
        omega
      · show s.currentPage - 1 ≤ (totalPages s.len s.itemsPerPage : Int)
        omega
    · exact h

theorem pagination_step_spec_witness :
    pagStep ⟨1, 25, 30, "t"⟩ (PagEvent.goToPage 5) = ⟨1, 25, 30, "t"⟩ ∧
      (pagStep ⟨1, 25, 30, "t"⟩ (PagEvent.changeItemsPerPage 10)).currentPage = 1 ∧
      (pagStep ⟨1, 25, 30, "t"⟩ (PagEvent.setItems 5 "u")).currentPage = 1 ∧
      (pagStep ⟨2, 25, 30, "t"⟩ PagEvent.nextPage).currentPage ≤
        (totalPages 30 25 : Int) := by
  have h := pagination_step_spec ⟨2, 25, 30, "t"⟩ 5 10 5 "u"
  have h' := pagination_step_spec ⟨1, 25, 30, "t"⟩ 5 10 5 "u"
  exact ⟨h'.1 (by decide), h'.2.2.1, h'.2.2.2.1 (by decide),
    (h.2.1 (by decide) PagEvent.nextPage (Or.inr (Or.inl rfl))).2⟩

/-- In-flight watchlist toggle: the identifier, the company label and the
`alreadyStarred` snapshot captured before the persistence call. -/
structure ToggleOp where
  cik : String
  company : String
  alreadyStarred : Bool
deriving DecidableEq, Repr

/-- Client state touched by `toggleStar` in `mainPage.tsx`; `pending` lists
the persistence calls currently in flight (awaited but not yet resolved). -/
structure WatchState where
  user : Option String
  starred : Finset String
  starLoading : Option String
  confirmMessage : Option String
  showLoginModal : Bool
  pending : List ToggleOp
deriving DecidableEq

/-- The transient failure notice set by the catch branch of `toggleStar`. -/
def watchlistErrorMsg : String :=
  "Something went wrong while updating your Watchlist."

/-- Models `sortedIpos.find(i => i.cik === cik)?.companyName || "IPO"`: the `||`
also replaces an empty company name. -/
def companyLabel (sortedIpos : List IPO) (cik : String) : String :=
  match sortedIpos.find? (fun i => i.cik == cik) with
  | none => "IPO"
  | some i => if i.companyName = "" then "IPO" else i.companyName

/-- First phase of `toggleStar` (everything before the `await` of the
persistence call): the login check, the guard `starLoading === cik`, setting
the single busy flag, and issuing the insert/delete with the
`alreadyStarred` snapshot. -/
def toggleBegin (st : WatchState) (sortedIpos : List IPO) (cik : String) :
    WatchState :=
  match st.user with
  | none => { st with showLoginModal := true }
  | some _ =>
    if st.starLoading = some cik then st
    else
      { st with
          starLoading := some cik,
          pending := st.pending ++
            [⟨cik, companyLabel sortedIpos cik, decide (cik ∈ st.starred)⟩] }

/-- Second phase of `toggleStar`: the continuation after the persistence call
for `op` resolves, with `ok = false` when the backend reported an error (the
catch branch).  The starred set is updated only on success; the `finally`
clause clears the busy flag; the op leaves the in-flight set. -/
def toggleEnd (st : WatchState) (op : ToggleOp) (ok : Bool) : WatchState :=
  if ok then
    if op.alreadyStarred then
      { st with starred := st.starred.erase op.cik,
                confirmMessage := some (op.company ++ " removed from your Watchlist"),
                starLoading := none,
                pending := st.pending.erase op }
    else
      { st with starred := insert op.cik st.starred,
                confirmMessage := some (op.company ++ " added to your Watchlist"),
                starLoading := none,
                pending := st.pending.erase op }
  else
    { st with confirmMessage := some watchlistErrorMsg,
              starLoading := none,
              pending := st.pending.erase op }

/-- C6: no optimistic update — the begin phase never changes the starred set,
and a failed persistence call leaves the starred set exactly as it was while
showing the transient failure notice; in particular a begin followed by a
failing completion preserves the starred set. -/
theorem toggleStar_failure_spec (st : WatchState) (sortedIpos : List IPO)
    (cik : String) (op op' : ToggleOp) :
    (toggleBegin st sortedIpos cik).starred = st.starred ∧
      (toggleEnd st op false).starred = st.starred ∧
      (toggleEnd st op false).confirmMessage = some watchlistErrorMsg ∧
      (toggleEnd (toggleBegin st sortedIpos cik) op' false).starred = st.starred := by
  have hb : (toggleBegin st sortedIpos cik).starred = st.starred := by
    unfold toggleBegin
    split
    · rfl
    · split <;> rfl
  exact ⟨hb, by simp [toggleEnd], by simp [toggleEnd], by simp [toggleEnd, hb]⟩

/-- C7 amended: the busy guard is a single global flag holding the most
recently started toggle's identifier — a toggle for `cik` is rejected (no
state change, no persistence call) exactly while `starLoading = some cik`,
and the completion of any toggle clears the flag entirely. -/
theorem toggleStar_guard_spec (st : WatchState) (sortedIpos : List IPO)
    (cik : String) (u : String) (op : ToggleOp) (ok : Bool)
    (hu : st.user = some u) (hl : st.starLoading = some cik) :
    toggleBegin st sortedIpos cik = st ∧ (toggleEnd st op ok).starLoading = none := by
  constructor
  · unfold toggleBegin
    rw [hu]
    simp [hl]
  · unfold toggleEnd
    split
    · split <;> rfl
    · rfl

theorem toggleStar_guard_spec_witness :
    toggleBegin ⟨some "u", ∅, some "A", none, false, []⟩ [] "A"
        = ⟨some "u", ∅, some "A", none, false, []⟩ ∧
      (toggleEnd ⟨some "u", ∅, some "A", none, false, []⟩ ⟨"A", "IPO", false⟩ true).starLoading
        = none :=
  toggleStar_guard_spec ⟨some "u", ∅, some "A", none, false, []⟩ [] "A" "u"
    ⟨"A", "IPO", false⟩ true rfl rfl

/-- C7 counterexample: the guard is not per-identifier.  With a toggle for
"A" still in flight, a toggle for "B" overwrites the single busy flag, after
which a duplicate toggle for "A" is admitted: it changes the state and issues
a second in-flight persistence call for "A". -/
theorem toggleStar_guard_counterexample :
    let s0 : WatchState := ⟨some "u", ∅, none, none, false, []⟩
    let s1 := toggleBegin s0 [] "A"
    let s2 := toggleBegin s1 [] "B"
    toggleBegin s2 [] "A" ≠ s2 ∧
      ((toggleBegin s2 [] "A").pending.filter (fun op => op.cik == "A")).length = 2 ∧
      (s2.pending.filter (fun op => op.cik == "A")).length = 1 := by decide

/-- Upstream field typed `string | number | undefined` in `IPOResponseRow`.
Numeric JSON values are modelled as naturals (the actual fields are
nonnegative counts/amounts); `toString` is then the plain decimal form and
`toLocaleString` the en-US comma-grouped form. -/
inductive UpVal where
  | s (v : String)
  | n (v : Nat)
  | none
deriving DecidableEq, Repr

/-- Interface `IPOResponseRow` from `mainPage.tsx`, with the fields as typed there;
`Option String` models `string | undefined` (and for `logo_url` also
`null`, which the mapping keeps as the explicit no-logo marker). -/
structure IPOResponseRow where
  cik : UpVal
  ticker : Option String
  company_name : Option String
  exchange : Option String
  shares_offered : UpVal
  share_price : UpVal
  estimated_ipo_date : Option String
  latest_filing_type : Option String
  market_cap : UpVal
  logo_url : Option String
deriving DecidableEq, Repr

/-- Comma-group a little-endian digit list in threes (en-US grouping). -/
def groupRev : List Char → List Char
  | [] => []
  | [a] => [a]
  | [a, b] => [a, b]
  | [a, b, c] => [a, b, c]
  | a :: b :: c :: d :: rest => a :: b :: c :: ',' :: groupRev (d :: rest)

/-- JS `Number.prototype.toLocaleString()` (default en-US locale) for a
natural number: decimal digits grouped in threes with commas. -/
def natToLocaleString (v : Nat) : String :=
  String.mk ((groupRev (Nat.toDigits 10 v).reverse).reverse)

/-- The row mapping inside `fetchEverything` (`mainPage.tsx`), producing the
canonical `IPO` record; it is a total function (never throws). -/
def normalizeRow (r : IPOResponseRow) : IPO :=
  { cik :=
      match r.cik with
      | .s v => v
      | .n v => toString v
      | .none => ""
    ticker := r.ticker.getD ""
    companyName := r.company_name.getD ""
    exchange := r.exchange.getD ""
    sharesOffered :=
      match r.shares_offered with
      | .n v => natToLocaleString v
      | .s v => v
      | .none => ""
    sharePrice :=
      match r.share_price with
      | .s v => v
      | .n v => toString v
      | .none => ""
    estimatedIpoDate := r.estimated_ipo_date.getD ""
    latestFilingType := r.latest_filing_type.getD ""
    raiseAmount :=
      match r.market_cap with
      | .n v => toString v
      | .s v => v
      | .none => ""
    logoUrl := r.logo_url
    rank := 0 }

/-- Row whose three numeric fields carry the number 1234567. -/
def sampleRow : IPOResponseRow :=
  { cik := UpVal.s "1", ticker := none, company_name := none, exchange := none,
    shares_offered := UpVal.n 1234567, share_price := UpVal.n 1234567,
    estimated_ipo_date := none, latest_filing_type := none,
    market_cap := UpVal.n 1234567, logo_url := none }

/-- C9 counterexample: a numeric share price is rendered with plain
`toString`, not the locale-formatted (comma-grouped) decimal form the claim
states for all three numeric fields: source value 1234567 yields canonical
share price "1234567", different from the locale form "1,234,567" (which is
what shares offered gets). -/
theorem normalizeRow_locale_counterexample :
    (normalizeRow sampleRow).sharePrice = "1234567" ∧
      natToLocaleString 1234567 = "1,234,567" ∧
      (normalizeRow sampleRow).sharePrice ≠ natToLocaleString 1234567 ∧
      (normalizeRow sampleRow).sharesOffered = "1,234,567" ∧
      (normalizeRow sampleRow).raiseAmount = "1234567" := by decide

/-- C9 amended: the normalizer is total and, field by field: a missing or
non-string/non-number source value becomes the empty string, the logo URL
keeps the explicit no-logo marker (`none`), rank is initialized to 0; a
numeric shares-offered value is locale-formatted (comma-grouped) while
numeric share-price and raise-amount values get the plain `toString`
decimal form. -/
theorem normalizeRow_spec (r : IPOResponseRow) :
    ((r.ticker = none → (normalizeRow r).ticker = "") ∧
      (r.company_name = none → (normalizeRow r).companyName = "") ∧
      (r.exchange = none → (normalizeRow r).exchange = "") ∧
      (r.estimated_ipo_date = none → (normalizeRow r).estimatedIpoDate = "") ∧
      (r.latest_filing_type = none → (normalizeRow r).latestFilingType = "") ∧
      (r.cik = UpVal.none → (normalizeRow r).cik = "") ∧
      (r.shares_offered = UpVal.none → (normalizeRow r).sharesOffered = "") ∧
      (r.share_price = UpVal.none → (normalizeRow r).sharePrice = "") ∧
      (r.market_cap = UpVal.none → (normalizeRow r).raiseAmount = "")) ∧
      (∀ v, r.shares_offered = UpVal.n v →
        (normalizeRow r).sharesOffered = natToLocaleString v) ∧
      (∀ v, r.share_price = UpVal.n v → (normalizeRow r).sharePrice = toString v) ∧
      (∀ v, r.market_cap = UpVal.n v → (normalizeRow r).raiseAmount = toString v) ∧
      (normalizeRow r).logoUrl = r.logo_url ∧
      (normalizeRow r).rank = 0 := by
  simp +contextual [normalizeRow]

/-- Row with every optional field missing. -/
def emptyRow : IPOResponseRow :=
  { cik := UpVal.none, ticker := none, company_name := none, exchange := none,
    shares_offered := UpVal.none, share_price := UpVal.none,
    estimated_ipo_date := none, latest_filing_type := none,
    market_cap := UpVal.none, logo_url := none }

theorem normalizeRow_spec_witness :
    (normalizeRow emptyRow).ticker = "" ∧
      (normalizeRow emptyRow).companyName = "" ∧
      (normalizeRow emptyRow).exchange = "" ∧
      (normalizeRow emptyRow).estimatedIpoDate = "" ∧
      (normalizeRow emptyRow).latestFilingType = "" ∧
      (normalizeRow emptyRow).cik = "" ∧
      (normalizeRow emptyRow).sharesOffered = "" ∧
      (normalizeRow emptyRow).sharePrice = "" ∧
      (normalizeRow emptyRow).raiseAmount = "" ∧
      (normalizeRow sampleRow).sharesOffered = natToLocaleString 1234567 ∧
      (normalizeRow sampleRow).sharePrice = toString 1234567 ∧
      (normalizeRow sampleRow).raiseAmount = toString 1234567 ∧
      (normalizeRow emptyRow).logoUrl = none ∧
      (normalizeRow emptyRow).rank = 0 := by
  have h1 := normalizeRow_spec emptyRow
  have h2 := normalizeRow_spec sampleRow
  exact ⟨h1.1.1 rfl, h1.1.2.1 rfl, h1.1.2.2.1 rfl, h1.1.2.2.2.1 rfl,
    h1.1.2.2.2.2.1 rfl, h1.1.2.2.2.2.2.1 rfl, h1.1.2.2.2.2.2.2.1 rfl,
    h1.1.2.2.2.2.2.2.2.1 rfl, h1.1.2.2.2.2.2.2.2.2 rfl,
    h2.2.1 1234567 rfl, h2.2.2.1 1234567 rfl, h2.2.2.2.1 1234567 rfl,
    h1.2.2.2.2.1, h1.2.2.2.2.2⟩

end IPOHype
